import Mathlib

/-!
# PDFComparision: `script.js`

A shallow embedding of the text helpers (`escapeHtml`, `normalizeText`), the
text extractor (`extractText`), the page renderer (`renderPDF`) and the
comparison orchestrator (`comparePDFs`) of `script.js`, with the properties the
specification states about them.

JavaScript strings are sequences of UTF-16 code units, and the regular
expressions of the script carry no `u` flag, so they match code unit by code
unit.  A string is therefore a list of code units, a code unit a natural
number.
-/

namespace PDFComparision

/-! ## Strings -/

/-- A UTF-16 code unit. -/
abbrev CodeUnit := Nat

/-- A JavaScript string: its UTF-16 code units, in order. -/
abbrev JSString := List CodeUnit

/-- The UTF-16 encoding of one Unicode scalar value. -/
def utf16 (c : Char) : JSString :=
  if c.toNat < 65536 then [c.toNat]
  else [55296 + (c.toNat - 65536) / 1024, 56320 + (c.toNat - 65536) % 1024]

/-- The JavaScript string a source literal denotes. -/
def js (s : String) : JSString := s.toList.flatMap utf16

/-- `text.replace(/c/g, rep)` for a pattern that is the single code unit `c`
and a replacement `rep` without `$`: every occurrence of `c` becomes `rep`,
every other code unit stays. -/
def replaceChar (c : CodeUnit) (rep : JSString) (text : JSString) : JSString :=
  text.flatMap (fun x => if x = c then rep else [x])

/-- `text.replace(/[p]+/g, rep)`: every maximal run of code units of the class
`p` becomes one `rep`.  The scan goes left to right; `inRun` says that the
code unit just read belonged to a run whose replacement is already written. -/
def replaceRuns (p : CodeUnit → Bool) (rep : JSString) : Bool → JSString → JSString
  | _, [] => []
  | inRun, c :: cs =>
    if p c then
      if inRun then replaceRuns p rep true cs else rep ++ replaceRuns p rep true cs
    else c :: replaceRuns p rep false cs

/-- The code units `\s` matches (ECMAScript WhiteSpace and LineTerminator):
TAB, LF, VT, FF, CR, SP, NBSP, U+1680, U+2000 to U+200A, LS, PS, U+202F, U+205F,
U+3000 and U+FEFF.  `String.prototype.trim` strips the same set. -/
def isWhiteSpace (c : CodeUnit) : Bool :=
  c = 9 || c = 10 || c = 11 || c = 12 || c = 13 || c = 32 || c = 160 || c = 5760 ||
  (8192 ≤ c && c ≤ 8202) || c = 8232 || c = 8233 || c = 8239 || c = 8287 ||
  c = 12288 || c = 65279

/-- The class of the pattern `/\n+/g`: the line feed alone. -/
def isNewline (c : CodeUnit) : Bool := c = 10

/-- `String.prototype.trim`: white space leaves both ends. -/
def trim (text : JSString) : JSString :=
  (text.dropWhile isWhiteSpace).rdropWhile isWhiteSpace

/-! ## `escapeHtml` and `normalizeText` -/

/-- `escapeHtml` of `script.js`: three global replacements, one after the
other, `&` first. -/
def escapeHtml (text : JSString) : JSString :=
  replaceChar 62 (js "&gt;") (replaceChar 60 (js "&lt;") (replaceChar 38 (js "&amp;") text))

/-- `normalizeText` of `script.js`: `\s+` to one space, then `\n+` to one line
feed, then `trim`. -/
def normalizeText (text : JSString) : JSString :=
  trim (replaceRuns isNewline [10] false (replaceRuns isWhiteSpace [32] false text))

/-- The entity the specification gives for one code unit: `&amp;` for `&`,
`&lt;` for `<`, `&gt;` for `>`, the code unit itself otherwise. -/
def escapeUnit (c : CodeUnit) : JSString :=
  if c = 38 then js "&amp;" else if c = 60 then js "&lt;" else if c = 62 then js "&gt;" else [c]

/-- The escaper as the specification words it: one pass from left to right
that writes `escapeUnit c` for each code unit `c`. -/
def escapeOnePass (text : JSString) : JSString := text.flatMap escapeUnit

/-- `text.replace(/pat/g, rep)` for a pattern `pat` that is a non-empty literal
and a replacement without `$`: the scan goes left to right, a match is replaced
by `rep` and the scan resumes behind it.  `skip` counts the code units of the
last match still to be passed over. -/
def replaceAll (pat rep : JSString) : Nat → JSString → JSString
  | _, [] => []
  | skip + 1, _ :: cs => replaceAll pat rep skip cs
  | 0, c :: cs =>
    if pat.isPrefixOf (c :: cs) then rep ++ replaceAll pat rep (pat.length - 1) cs
    else c :: replaceAll pat rep 0 cs

/-- The inverse substitutions of the specification's escaper property, in the
order that undoes `escapeHtml`: every `&gt;` to `>`, then every `&lt;` to `<`,
last every `&amp;` to `&`. -/
def unescapeHtml (text : JSString) : JSString :=
  replaceAll (js "&amp;") (js "&") 0
    (replaceAll (js "&lt;") (js "<") 0 (replaceAll (js "&gt;") (js ">") 0 text))

/-- The shape `/\s+/g` leaves behind: the space is the only white space, and no
two spaces are neighbours. -/
def Collapsed (t : JSString) : Prop :=
  (∀ c ∈ t, isWhiteSpace c = true → c = 32) ∧ List.Chain' (fun a b => ¬ (a = 32 ∧ b = 32)) t

/-! ## The world of the script -/

/-- A diff segment `[type, text]` of diff_match_patch: `1` added, `-1` removed,
`0` unchanged. -/
abbrev Diff := Int × JSString

/-- The two page-view containers `renderPDF` is called on: `"pdf1-view"` and
`"pdf2-view"`. -/
inductive View
  | pdf1
  | pdf2
deriving DecidableEq

/-- A page as the libraries present it once their promises resolve. -/
structure Page where
  /-- `content.items.map((item) => item.str)` of `page.getTextContent()`. -/
  items : List JSString
  /-- `data.text` of `Tesseract.recognize` on the page drawn at scale 2.0. -/
  recognized : JSString
deriving DecidableEq

/-- An uploaded file: a name that tells the two uploads apart, and the pages
`pdfjsLib.getDocument` decodes from it. -/
structure PdfFile where
  name : Nat
  pages : List Page
deriving DecidableEq

/-- The calls the script makes into the File API, PDF.js, Tesseract.js and
diff_match_patch.  A scale is written in tenths: 12 for 1.2, 20 for 2.0. -/
inductive Call
  | arrayBuffer (file : Nat)
  | getDocument (file : Nat)
  | getPage (file page : Nat)
  | getTextContent (file page : Nat)
  | render (file page scale : Nat)
  | recognize (file page : Nat) (lang : JSString)
  | diff_main (text1 text2 : JSString)
  | diff_cleanupSemantic (diffs : List Diff)
deriving DecidableEq

/-- What the script does to its surroundings, one entry per effect. -/
inductive Event
  | call (c : Call)
  | alert (msg : JSString)
  | setResult (html : JSString)
  | clearView (v : View)
  | appendCanvas (v : View) (page : Nat)
deriving DecidableEq

/-- The page as the script sees and changes it: the markup of `#diffResult`,
the canvases of the two page views (a canvas is named by the page whose
viewport sized it), and the effects so far, oldest first. -/
structure World where
  diffResult : JSString
  pdf1View : List Nat
  pdf2View : List Nat
  trace : List Event
deriving DecidableEq

/-- The libraries: which calls reject (or throw), and what the diff engine
answers. `diff_cleanupSemantic` rewrites its argument in place; here it
returns the rewritten list. -/
structure Env where
  rejects : Call → Bool
  diff_main : JSString → JSString → List Diff
  diff_cleanupSemantic : List Diff → List Diff

/-- The outcome of an asynchronous function: its value, or `none` when a
rejection went uncaught, and the world it leaves. -/
abbrev Outcome (α : Type) := Option α × World

/-- Record one effect. -/
def emit (e : Event) (w : World) : World := { w with trace := w.trace ++ [e] }

/-- A call into a library: it is made, and it resolves or rejects. -/
def awaitCall (env : Env) (c : Call) (w : World) : Outcome Unit :=
  if env.rejects c then (none, emit (.call c) w) else (some (), emit (.call c) w)

/-- Sequencing: the rest runs when the first part returned, and an uncaught
rejection ends the function where it stands. -/
def andThen {α β : Type} (r : Outcome α) (k : α → World → Outcome β) : Outcome β :=
  match r with
  | (some a, w) => k a w
  | (none, w) => (none, w)

/-- The canvases of a page view. -/
def getView (v : View) (w : World) : List Nat :=
  match v with
  | .pdf1 => w.pdf1View
  | .pdf2 => w.pdf2View

/-- Replace the canvases of a page view. -/
def setView (v : View) (cs : List Nat) (w : World) : World :=
  match v with
  | .pdf1 => { w with pdf1View := cs }
  | .pdf2 => { w with pdf2View := cs }

/-- The statement `container.innerHTML = ""`. -/
def clearView (v : View) (w : World) : World := emit (.clearView v) (setView v [] w)

/-- The statement `container.appendChild(canvas)`. -/
def appendCanvas (v : View) (page : Nat) (w : World) : World :=
  emit (.appendCanvas v page) (setView v (getView v w ++ [page]) w)

/-- The statement `document.getElementById("diffResult").innerHTML = html`. -/
def setResult (html : JSString) (w : World) : World :=
  emit (.setResult html) { w with diffResult := html }

/-- The statement `alert(msg)`. -/
def alert (msg : JSString) (w : World) : World := emit (.alert msg) w

/-! ## `renderPDF` -/

/-- The loop of `renderPDF` from page `i` on: get the page, append a canvas of
its viewport at scale 1.2, draw the page. -/
def renderPages (env : Env) (file : Nat) (v : View) : Nat → List Page → World → Outcome Unit
  | _, [], w => (some (), w)
  | i, _ :: ps, w =>
    andThen (awaitCall env (.getPage file i) w) fun _ w1 =>
    andThen (awaitCall env (.render file i 12) (appendCanvas v i w1)) fun _ w2 =>
    renderPages env file v (i + 1) ps w2

/-- `renderPDF` of `script.js`. -/
def renderPDF (env : Env) (file : PdfFile) (v : View) (w : World) : Outcome Unit :=
  andThen (awaitCall env (.arrayBuffer file.name) w) fun _ w1 =>
  andThen (awaitCall env (.getDocument file.name) w1) fun _ w2 =>
  renderPages env file.name v 1 file.pages (clearView v w2)

/-! ## `extractText` -/

/-- `content.items.map((item) => item.str).join(" ")`. -/
def directText (p : Page) : JSString := (js " ").intercalate p.items

/-- The loop of `extractText` from page `i` on, `fullText` being the text
gathered so far. -/
def extractPages (env : Env) (file : Nat) :
    Nat → List Page → JSString → World → Outcome JSString
  | _, [], fullText, w => (some fullText, w)
  | i, p :: ps, fullText, w =>
    andThen (awaitCall env (.getPage file i) w) fun _ w1 =>
    andThen (awaitCall env (.getTextContent file i) w1) fun _ w2 =>
    if trim (directText p) = [] then
      andThen (awaitCall env (.render file i 20) w2) fun _ w3 =>
      andThen (awaitCall env (.recognize file i (js "eng")) w3) fun _ w4 =>
      extractPages env file (i + 1) ps (fullText ++ (p.recognized ++ js "\n")) w4
    else extractPages env file (i + 1) ps (fullText ++ (directText p ++ js "\n")) w2

/-- `extractText` of `script.js`. -/
def extractText (env : Env) (file : PdfFile) (w : World) : Outcome JSString :=
  andThen (awaitCall env (.arrayBuffer file.name) w) fun _ w1 =>
  andThen (awaitCall env (.getDocument file.name) w1) fun _ w2 =>
  andThen (extractPages env file.name 1 file.pages [] w2) fun fullText w3 =>
  (some (normalizeText fullText), w3)

/-! ## `comparePDFs` -/

/-- The body of the `forEach` callback: one segment appended to `diffHtml`. -/
def appendSegment (diffHtml : JSString) (d : Diff) : JSString :=
  if d.1 = 1 then diffHtml ++ (js "<span class=\"diff-added\">" ++ escapeHtml d.2 ++ js "</span>")
  else if d.1 = -1 then
    diffHtml ++ (js "<span class=\"diff-removed\">" ++ escapeHtml d.2 ++ js "</span>")
  else diffHtml ++ (js "<span>" ++ escapeHtml d.2 ++ js "</span>")

/-- The loop `diffs.forEach(...)` started from `diffHtml = ""`. -/
def buildDiffHtml (diffs : List Diff) : JSString := diffs.foldl appendSegment []

/-- The text of the alert for a missing upload. -/
def uploadBothMessage : JSString := js "Please upload both PDFs"

/-- The markup shown while the comparison runs. -/
def waitMessage : JSString := js "<b>Comparing PDFs, please wait...</b>"

/-- The markup shown when neither document has text. -/
def noTextMessage : JSString := js "<b>No readable text found in PDFs.</b>"

/-- `comparePDFs` of `script.js`; `file1` and `file2` are `files[0]` of the two
inputs, `none` for an input without a file. -/
def comparePDFs (env : Env) (file1 file2 : Option PdfFile) (w : World) : Outcome Unit :=
  match file1, file2 with
  | some f1, some f2 =>
    andThen (renderPDF env f1 .pdf1 (setResult waitMessage w)) fun _ w1 =>
    andThen (renderPDF env f2 .pdf2 w1) fun _ w2 =>
    andThen (extractText env f1 w2) fun text1 w3 =>
    andThen (extractText env f2 w3) fun text2 w4 =>
    if text1 = [] ∧ text2 = [] then (some (), setResult noTextMessage w4)
    else
      andThen (awaitCall env (.diff_main text1 text2) w4) fun _ w5 =>
      andThen (awaitCall env (.diff_cleanupSemantic (env.diff_main text1 text2)) w5) fun _ w6 =>
      (some (), setResult (buildDiffHtml (env.diff_cleanupSemantic (env.diff_main text1 text2))) w6)
  | _, _ => (some (), alert uploadBothMessage w)

/-! ## The specification's words -/

/-- The text a page contributes: its direct text when that is not blank, the
recognized text otherwise. -/
def pageText (p : Page) : JSString :=
  if trim (directText p) = [] then p.recognized else directText p

/-- The markup of one segment, chosen by kind. -/
def segmentSpan (d : Diff) : JSString :=
  if d.1 = 1 then js "<span class=\"diff-added\">" ++ escapeHtml d.2 ++ js "</span>"
  else if d.1 = -1 then js "<span class=\"diff-removed\">" ++ escapeHtml d.2 ++ js "</span>"
  else js "<span>" ++ escapeHtml d.2 ++ js "</span>"

/-- The calls of a trace to the recognition engine: file, page and language
model of each, in order. -/
def recognizeCalls (t : List Event) : List (Nat × Nat × JSString) :=
  t.filterMap fun e =>
    match e with
    | .call (.recognize f i lang) => some (f, i, lang)
    | _ => none

/-- The pages from number `i` on whose direct text is blank, by number. -/
def blankPages : Nat → List Page → List Nat
  | _, [] => []
  | i, p :: ps => if trim (directText p) = [] then i :: blankPages (i + 1) ps else blankPages (i + 1) ps

/-- Libraries none of whose calls rejects. -/
def Env.reliable (env : Env) : Prop := ∀ c, env.rejects c = false

/-- The calls of a trace to the diff engine, `diff_main` and
`diff_cleanupSemantic` alike, in order. -/
def diffCalls (t : List Event) : List Call :=
  t.filterMap fun e =>
    match e with
    | .call (.diff_main a b) => some (.diff_main a b)
    | .call (.diff_cleanupSemantic ds) => some (.diff_cleanupSemantic ds)
    | _ => none

/-- The argument pairs of the `diff_main` calls of a trace, in order. -/
def diffMainCalls (t : List Event) : List (JSString × JSString) :=
  t.filterMap fun e =>
    match e with
    | .call (.diff_main a b) => some (a, b)
    | _ => none

/-- The markups a trace wrote to the result area, in order. -/
def resultWrites (t : List Event) : List JSString :=
  t.filterMap fun e =>
    match e with
    | .setResult html => some html
    | _ => none

/-- The effects `renderPDF` and `extractText` can have: calls into the File
API, PDF.js and Tesseract.js, and changes of a page view. -/
def Event.isHelper : Event → Bool
  | .call (.diff_main _ _) => false
  | .call (.diff_cleanupSemantic _) => false
  | .call _ => true
  | .alert _ => false
  | .setResult _ => false
  | .clearView _ => true
  | .appendCanvas _ _ => true

/-- The world `w2` comes from `w1` by effects of `renderPDF` and `extractText`
alone, the result area untouched. -/
def HelperRun (w1 w2 : World) : Prop :=
  w2.diffResult = w1.diffResult ∧
    ∃ evs, w2.trace = w1.trace ++ evs ∧ ∀ e ∈ evs, Event.isHelper e = true

/-! ## Sample inputs -/

/-- Libraries that never reject, with a diff engine that reports the first
text removed and the second added. -/
def sampleEnv : Env where
  rejects := fun _ => false
  diff_main := fun a b => [(-1, a), (1, b)]
  diff_cleanupSemantic := fun ds => ds

/-- A document of two pages: text `Hi` on the first, a scan reading `ok` on
the second. -/
def sampleFile : PdfFile := ⟨1, [⟨[js "Hi"], js "zz"⟩, ⟨[js " ", js ""], js "ok"⟩]⟩

/-- A document of one page with neither text nor anything to recognize. -/
def blankFile : PdfFile := ⟨2, [⟨[], []⟩]⟩

/-- An untouched page. -/
def emptyWorld : World := ⟨[], [], [], []⟩

/-- The world after `renderPDF` of the first of two files in a comparison
started on the untouched page. -/
def afterRender1 (f1 : PdfFile) : World :=
  (renderPDF sampleEnv f1 .pdf1 (setResult waitMessage emptyWorld)).2

/-- The world after `renderPDF` of the second file. -/
def afterRender2 (f1 f2 : PdfFile) : World := (renderPDF sampleEnv f2 .pdf2 (afterRender1 f1)).2

/-- The world after `extractText` of the first file. -/
def afterExtract1 (f1 f2 : PdfFile) : World := (extractText sampleEnv f1 (afterRender2 f1 f2)).2

/-- The world after `extractText` of the second file. -/
def afterExtract2 (f1 f2 : PdfFile) : World := (extractText sampleEnv f2 (afterExtract1 f1 f2)).2

/-! ## The escaper -/

theorem escapeHtml_sample : escapeHtml (js "a<b>&c") = js "a&lt;b&gt;&amp;c" := by decide

theorem escapeHtml_sample_entity : escapeHtml (js "&lt;") = js "&amp;lt;" := by decide

theorem unescapeHtml_sample :
    unescapeHtml (js "a&lt;b&gt;&amp;c&amp;lt;") = js "a<b>&c&lt;" := by decide

theorem js_amp : js "&amp;" = [38, 97, 109, 112, 59] := by decide

theorem js_lt : js "&lt;" = [38, 108, 116, 59] := by decide

theorem js_gt : js "&gt;" = [38, 103, 116, 59] := by decide

theorem replaceChar_nil (c : CodeUnit) (rep : JSString) : replaceChar c rep [] = [] := rfl

theorem replaceChar_cons (c : CodeUnit) (rep : JSString) (x : CodeUnit) (xs : JSString) :
    replaceChar c rep (x :: xs) = (if x = c then rep else [x]) ++ replaceChar c rep xs := by
  simp [replaceChar]

theorem replaceChar_append (c : CodeUnit) (rep : JSString) (xs ys : JSString) :
    replaceChar c rep (xs ++ ys) = replaceChar c rep xs ++ replaceChar c rep ys := by
  simp [replaceChar]

/-- On a pattern of one code unit the two models of a global replacement
agree. -/
theorem replaceAll_single (c : CodeUnit) (rep s : JSString) :
    replaceAll [c] rep 0 s = replaceChar c rep s := by
  induction s with
  | nil => rfl
  | cons x xs ih =>
    rw [replaceChar_cons, ← ih]
    by_cases h : x = c
    · subst h
      simp [replaceAll, List.isPrefixOf]
    · have hne : (c == x) = false := by simpa using fun hc => h hc.symm
      simp [replaceAll, List.isPrefixOf, h, hne]

theorem escapeHtml_cons (c : CodeUnit) (cs : JSString) :
    escapeHtml (c :: cs) = escapeUnit c ++ escapeHtml cs := by
  unfold escapeHtml escapeUnit
  rw [replaceChar_cons]
  by_cases h38 : c = 38
  · subst h38
    simp [js_amp, js_lt, js_gt, replaceChar_append, replaceChar_cons, replaceChar_nil]
  · by_cases h60 : c = 60
    · subst h60
      simp [js_amp, js_lt, js_gt, replaceChar_append, replaceChar_cons, replaceChar_nil]
    · by_cases h62 : c = 62
      · subst h62
        simp [js_amp, js_lt, js_gt, replaceChar_append, replaceChar_cons, replaceChar_nil]
      · simp [h38, h60, h62, replaceChar_append, replaceChar_cons, replaceChar_nil]

theorem escapeHtml_eq_onePass (s : JSString) : escapeHtml s = escapeOnePass s := by
  induction s with
  | nil => rfl
  | cons c cs ih => rw [escapeHtml_cons, ih]; simp [escapeOnePass]

theorem escapeUnit_no_angle (c : CodeUnit) : 60 ∉ escapeUnit c ∧ 62 ∉ escapeUnit c := by
  unfold escapeUnit
  by_cases h38 : c = 38
  · simp [h38, js_amp]
  · by_cases h60 : c = 60
    · simp [h60, js_lt]
    · by_cases h62 : c = 62
      · simp [h62, js_gt]
      · simp only [h38, h60, h62, if_false, List.mem_singleton]
        exact ⟨fun h => h60 h.symm, fun h => h62 h.symm⟩

/-- C1: for every string `s`, `escapeHtml s` is the string a single pass from
left to right writes that replaces each `&` by `&amp;`, each `<` by `&lt;`,
each `>` by `&gt;` and keeps every other code unit; it holds no literal `<`
and no literal `>`. -/
theorem escapeHtml_single_pass (s : JSString) :
    escapeHtml s = s.flatMap escapeUnit ∧ 60 ∉ escapeHtml s ∧ 62 ∉ escapeHtml s := by
  have h : escapeHtml s = s.flatMap escapeUnit := escapeHtml_eq_onePass s
  refine ⟨h, ?_, ?_⟩
  · rw [h]
    simp only [List.mem_flatMap, not_exists, not_and]
    exact fun c _ => (escapeUnit_no_angle c).1
  · rw [h]
    simp only [List.mem_flatMap, not_exists, not_and]
    exact fun c _ => (escapeUnit_no_angle c).2

theorem js_amp1 : js "&" = [38] := by decide

theorem js_lt1 : js "<" = [60] := by decide

theorem js_gt1 : js ">" = [62] := by decide

/-- The inverse substitutions take the entity of one code unit back to it,
whatever follows. -/
theorem unescapeHtml_escapeUnit_append (c : CodeUnit) (t : JSString) :
    unescapeHtml (escapeUnit c ++ t) = c :: unescapeHtml t := by
  unfold unescapeHtml escapeUnit
  by_cases h38 : c = 38
  · subst h38
    simp [js_amp, js_lt, js_gt, js_amp1, js_lt1, js_gt1, replaceAll, List.isPrefixOf]
  · by_cases h60 : c = 60
    · subst h60
      simp [js_amp, js_lt, js_gt, js_amp1, js_lt1, js_gt1, replaceAll, List.isPrefixOf]
    · by_cases h62 : c = 62
      · subst h62
        simp [js_amp, js_lt, js_gt, js_amp1, js_lt1, js_gt1, replaceAll, List.isPrefixOf]
      · have h38b : (38 == c) = false := by simpa using fun h => h38 h.symm
        simp [h38, h60, h62, h38b, js_amp, js_lt, js_gt, js_amp1, js_lt1, js_gt1, replaceAll,
          List.isPrefixOf]

theorem unescapeHtml_escapeHtml (s : JSString) : unescapeHtml (escapeHtml s) = s := by
  induction s with
  | nil => decide
  | cons c cs ih => rw [escapeHtml_cons, unescapeHtml_escapeUnit_append, ih]

/-- C7: the inverse substitutions (`&gt;` to `>`, then `&lt;` to `<`, last
`&amp;` to `&`) undo `escapeHtml`, and `escapeHtml` is injective. -/
theorem escapeHtml_injective :
    (∀ s, unescapeHtml (escapeHtml s) = s) ∧ Function.Injective escapeHtml :=
  ⟨unescapeHtml_escapeHtml, Function.LeftInverse.injective unescapeHtml_escapeHtml⟩

/-! ## The normalizer -/

theorem normalizeText_sample :
    normalizeText (js "  a \t\n b\n\nc  ") = js "a b c" := by decide

theorem isWhiteSpace_space : isWhiteSpace 32 = true := by decide

theorem isWhiteSpace_newline : isWhiteSpace 10 = true := by decide

theorem replaceRuns_nil (p : CodeUnit → Bool) (rep : JSString) (b : Bool) :
    replaceRuns p rep b [] = [] := by
  cases b <;> rfl

theorem replaceRuns_cons_of_not (p : CodeUnit → Bool) (rep : JSString) (b : Bool)
    (c : CodeUnit) (cs : JSString) (h : p c = false) :
    replaceRuns p rep b (c :: cs) = c :: replaceRuns p rep false cs := by
  cases b <;> simp [replaceRuns, h]

theorem replaceRuns_cons_inRun (p : CodeUnit → Bool) (rep : JSString)
    (c : CodeUnit) (cs : JSString) (h : p c = true) :
    replaceRuns p rep true (c :: cs) = replaceRuns p rep true cs := by
  simp [replaceRuns, h]

theorem replaceRuns_cons_start (p : CodeUnit → Bool) (rep : JSString)
    (c : CodeUnit) (cs : JSString) (h : p c = true) :
    replaceRuns p rep false (c :: cs) = rep ++ replaceRuns p rep true cs := by
  simp [replaceRuns, h]

/-- Where no code unit is of the class, the replacement changes nothing. -/
theorem replaceRuns_of_none (p : CodeUnit → Bool) (rep : JSString) (b : Bool) (t : JSString)
    (h : ∀ c ∈ t, p c = false) : replaceRuns p rep b t = t := by
  induction t generalizing b with
  | nil => exact replaceRuns_nil p rep b
  | cons c cs ih =>
    rw [replaceRuns_cons_of_not p rep b c cs (h c (List.mem_cons_self c cs)),
      ih false (fun d hd => h d (List.mem_cons_of_mem c hd))]

/-- After `/\s+/g` the text is collapsed; read inside a run, it does not start
with a space. -/
theorem replaceRuns_collapsed (b : Bool) (s : JSString) :
    Collapsed (replaceRuns isWhiteSpace [32] b s) ∧
      (b = true → ∀ c ∈ (replaceRuns isWhiteSpace [32] b s).head?, c ≠ 32) := by
  induction s generalizing b with
  | nil =>
    rw [replaceRuns_nil]
    exact ⟨⟨fun c hc => absurd hc (List.not_mem_nil c), List.chain'_nil⟩,
      fun _ c hc => by simp at hc⟩
  | cons c cs ih =>
    cases hc : isWhiteSpace c with
    | false =>
      have hne : c ≠ 32 := fun h => by rw [h, isWhiteSpace_space] at hc; cases hc
      rw [replaceRuns_cons_of_not _ _ b c cs hc]
      obtain ⟨⟨hall, hchain⟩, _⟩ := ih false
      refine ⟨⟨?_, ?_⟩, ?_⟩
      · intro d hd hw
        rcases List.mem_cons.1 hd with rfl | hd
        · rw [hc] at hw; cases hw
        · exact hall d hd hw
      · exact List.chain'_cons'.2 ⟨fun y _ h => hne h.1, hchain⟩
      · intro _ d hd
        simp only [List.head?_cons, Option.mem_def, Option.some.injEq] at hd
        exact hd ▸ hne
    | true =>
      cases b with
      | true =>
        rw [replaceRuns_cons_inRun _ _ c cs hc]
        exact ih true
      | false =>
        rw [replaceRuns_cons_start _ _ c cs hc]
        obtain ⟨⟨hall, hchain⟩, hhead⟩ := ih true
        refine ⟨⟨?_, ?_⟩, fun h => Bool.noConfusion h⟩
        · intro d hd _
          rcases List.mem_cons.1 hd with rfl | hd
          · rfl
          · exact hall d hd ‹_›
        · exact List.chain'_cons'.2 ⟨fun y hy h => hhead rfl y hy h.2, hchain⟩

theorem Collapsed.of_part {t u : JSString} (h : Collapsed t) (hu : u <:+: t) : Collapsed u :=
  ⟨fun c hc => h.1 c (hu.subset hc), List.Chain'.infix h.2 hu⟩

theorem Collapsed.no_newline {t : JSString} (h : Collapsed t) : ∀ c ∈ t, isNewline c = false := by
  intro c hc
  cases hn : isNewline c with
  | false => rfl
  | true =>
    have h10 : c = 10 := by simpa [isNewline] using hn
    have h32 : c = 32 := h.1 c hc (by rw [h10]; exact isWhiteSpace_newline)
    rw [h10] at h32
    exact absurd h32 (by decide)

theorem trim_part (t : JSString) : trim t <:+: t :=
  ((List.rdropWhile_prefix isWhiteSpace _).isInfix).trans (List.dropWhile_suffix isWhiteSpace).isInfix

/-- A collapsed text passes `/\s+/g` unchanged. -/
theorem replaceRuns_of_collapsed (b : Bool) (t : JSString) (h : Collapsed t)
    (hb : b = true → ∀ c ∈ t.head?, c ≠ 32) : replaceRuns isWhiteSpace [32] b t = t := by
  induction t generalizing b with
  | nil => exact replaceRuns_nil _ _ b
  | cons c cs ih =>
    have hcs : Collapsed cs := h.of_part (List.suffix_cons c cs).isInfix
    have hch := List.chain'_cons'.1 h.2
    cases hc : isWhiteSpace c with
    | false =>
      rw [replaceRuns_cons_of_not _ _ b c cs hc, ih false hcs (fun hf => Bool.noConfusion hf)]
    | true =>
      have h32 : c = 32 := h.1 c (List.mem_cons_self c cs) hc
      cases b with
      | true => exact absurd h32 (hb rfl c (by simp))
      | false =>
        rw [replaceRuns_cons_start _ _ c cs hc, ih true hcs (fun _ d hd h => hch.1 d hd ⟨h32, h⟩), h32]
        rfl

/-- What `normalizeText` computes: the second replacement finds no line feed. -/
theorem normalizeText_eq (s : JSString) :
    normalizeText s = trim (replaceRuns isWhiteSpace [32] false s) := by
  unfold normalizeText
  rw [replaceRuns_of_none isNewline [10] false _ (replaceRuns_collapsed false s).1.no_newline]

theorem normalizeText_collapsed (s : JSString) : Collapsed (normalizeText s) := by
  rw [normalizeText_eq]
  exact (replaceRuns_collapsed false s).1.of_part (trim_part _)

theorem trim_head_not_ws (t : JSString) : ∀ c ∈ (trim t).head?, isWhiteSpace c = false := by
  intro c hc
  unfold trim at hc
  have hpre := List.rdropWhile_prefix isWhiteSpace (t.dropWhile isWhiteSpace)
  obtain ⟨r, hr⟩ := hpre
  have hnot := List.head?_dropWhile_not isWhiteSpace t
  cases hA : List.rdropWhile isWhiteSpace (List.dropWhile isWhiteSpace t) with
  | nil => rw [hA] at hc; simp at hc
  | cons x xs =>
    rw [hA] at hc hr
    simp only [List.head?_cons, Option.mem_def, Option.some.injEq] at hc
    rw [← hr] at hnot
    simp only [List.cons_append, List.head?_cons] at hnot
    exact hc ▸ hnot

theorem trim_last_not_ws (t : JSString) : ∀ c ∈ (trim t).getLast?, isWhiteSpace c = false := by
  intro c hc
  unfold trim at hc
  by_cases hnil : List.rdropWhile isWhiteSpace (t.dropWhile isWhiteSpace) = []
  · rw [hnil] at hc; simp at hc
  · have := List.rdropWhile_last_not isWhiteSpace (t.dropWhile isWhiteSpace) hnil
    rw [List.getLast?_eq_getLast _ hnil] at hc
    simp only [Option.mem_def, Option.some.injEq] at hc
    rw [← hc]
    simpa using this

theorem trim_of_trimmed (t : JSString) (hh : ∀ c ∈ t.head?, isWhiteSpace c = false)
    (hl : ∀ c ∈ t.getLast?, isWhiteSpace c = false) : trim t = t := by
  unfold trim
  have h1 : t.dropWhile isWhiteSpace = t := by
    rw [List.dropWhile_eq_self_iff]
    intro hpos
    cases t with
    | nil => simp at hpos
    | cons x xs => simpa using hh x (by simp)
  rw [h1, List.rdropWhile_eq_self_iff]
  intro hne
  have := hl (t.getLast hne) (by rw [List.getLast?_eq_getLast _ hne]; rfl)
  simp [this]

/-- The output of `normalizeText` holds no line feed at all. -/
theorem normalizeText_no_newline (s : JSString) : 10 ∉ normalizeText s := by
  intro h
  have := (normalizeText_collapsed s).no_newline 10 h
  simp [isNewline] at this

/-- C2: the output of `normalizeText` holds no two consecutive spaces and no
two consecutive line feeds, and neither starts nor ends with a white space
code unit (the set `\s` matches and `trim` strips). -/
theorem normalizeText_shape (s : JSString) :
    ¬ [32, 32] <:+: normalizeText s ∧ ¬ [10, 10] <:+: normalizeText s ∧
      (∀ c ∈ (normalizeText s).head?, isWhiteSpace c = false) ∧
      (∀ c ∈ (normalizeText s).getLast?, isWhiteSpace c = false) := by
  refine ⟨?_, ?_, ?_, ?_⟩
  · intro h
    have := List.chain'_pair.1 ( List.Chain'.infix (normalizeText_collapsed s).2 h)
    exact this ⟨rfl, rfl⟩
  · intro h
    exact normalizeText_no_newline s (h.subset (by simp))
  · rw [normalizeText_eq]
    exact trim_head_not_ws _
  · rw [normalizeText_eq]
    exact trim_last_not_ws _

/-- C3, at the input `"a\n\nb"`: the run of two line feeds between `a` and `b`
comes out as one space, not as one line feed; and no output of
`normalizeText` holds a line feed. -/
theorem normalizeText_newline_run :
    normalizeText (js "a\n\nb") = js "a b" ∧ normalizeText (js "a\n\nb") ≠ js "a\nb" ∧
      ∀ s, 10 ∉ normalizeText s :=
  ⟨by decide, by decide, normalizeText_no_newline⟩

/-- C8: `normalizeText` is idempotent. -/
theorem normalizeText_idempotent (s : JSString) :
    normalizeText (normalizeText s) = normalizeText s := by
  rw [normalizeText_eq (normalizeText s),
    replaceRuns_of_collapsed false _ (normalizeText_collapsed s) (fun h => Bool.noConfusion h)]
  apply trim_of_trimmed
  · rw [normalizeText_eq]
    exact trim_head_not_ws _
  · rw [normalizeText_eq]
    exact trim_last_not_ws _

/-! ## Sequencing -/

theorem awaitCall_of_resolves (env : Env) (c : Call) (w : World) (h : env.rejects c = false) :
    awaitCall env c w = (some (), emit (.call c) w) := by
  simp [awaitCall, h]

/-- A sequence that starts with a call returns only when the call resolves and
the rest returns. -/
theorem andThen_awaitCall_some {β : Type} (env : Env) (c : Call) (w w' : World)
    (k : Unit → World → Outcome β) (b : β)
    (h : andThen (awaitCall env c w) k = (some b, w')) :
    env.rejects c = false ∧ k () (emit (.call c) w) = (some b, w') := by
  unfold awaitCall at h
  cases hr : env.rejects c with
  | true => rw [hr] at h; simp [andThen] at h
  | false => rw [hr] at h; exact ⟨rfl, by simpa [andThen] using h⟩

theorem andThen_some {α β : Type} (r : Outcome α) (k : α → World → Outcome β) (b : β)
    (w' : World) (h : andThen r k = (some b, w')) :
    ∃ a w1, r = (some a, w1) ∧ k a w1 = (some b, w') := by
  obtain ⟨o, w1⟩ := r
  cases o with
  | none => simp [andThen] at h
  | some a => exact ⟨a, w1, rfl, by simpa [andThen] using h⟩

theorem recognizeCalls_emit (e : Event) (w : World) :
    recognizeCalls (emit e w).trace = recognizeCalls w.trace ++ recognizeCalls [e] := by
  simp [recognizeCalls, emit, List.filterMap_append]

/-! ## The extractor -/

/-- What the loop of `extractText` returns when it returns: the texts of the
pages, a line feed behind each, after the text it started from; and one call
of the recognition engine, for English, per blank page. -/
theorem extractPages_some (env : Env) (f : Nat) (ps : List Page) :
    ∀ (i : Nat) (acc : JSString) (w w' : World) (t : JSString),
      extractPages env f i ps acc w = (some t, w') →
      t = acc ++ ps.flatMap (fun p => pageText p ++ js "\n") ∧
        recognizeCalls w'.trace =
          recognizeCalls w.trace ++ (blankPages i ps).map (fun k => (f, k, js "eng")) := by
  induction ps with
  | nil =>
    intro i acc w w' t h
    simp only [extractPages, Prod.mk.injEq, Option.some.injEq] at h
    obtain ⟨rfl, rfl⟩ := h
    simp [blankPages]
  | cons p ps ih =>
    intro i acc w w' t h
    rw [extractPages] at h
    obtain ⟨_, h⟩ := andThen_awaitCall_some _ _ _ _ _ _ h
    obtain ⟨_, h⟩ := andThen_awaitCall_some _ _ _ _ _ _ h
    by_cases hb : trim (directText p) = []
    · rw [if_pos hb] at h
      obtain ⟨_, h⟩ := andThen_awaitCall_some _ _ _ _ _ _ h
      obtain ⟨_, h⟩ := andThen_awaitCall_some _ _ _ _ _ _ h
      obtain ⟨ht, hc⟩ := ih _ _ _ _ _ h
      refine ⟨?_, ?_⟩
      · rw [ht]; simp [pageText, hb]
      · rw [hc]
        simp only [recognizeCalls_emit]
        simp [recognizeCalls, blankPages, hb]
    · rw [if_neg hb] at h
      obtain ⟨ht, hc⟩ := ih _ _ _ _ _ h
      refine ⟨?_, ?_⟩
      · rw [ht]; simp [pageText, hb]
      · rw [hc]
        simp only [recognizeCalls_emit]
        simp [recognizeCalls, blankPages, hb]

/-- With libraries that never reject, the loop of `extractText` returns. -/
theorem extractPages_returns (env : Env) (henv : env.reliable) (f : Nat) (ps : List Page) :
    ∀ (i : Nat) (acc : JSString) (w : World), ∃ t w', extractPages env f i ps acc w = (some t, w') := by
  induction ps with
  | nil => intro i acc w; exact ⟨acc, w, rfl⟩
  | cons p ps ih =>
    intro i acc w
    rw [extractPages, awaitCall_of_resolves _ _ _ (henv _)]
    simp only [andThen]
    rw [awaitCall_of_resolves _ _ _ (henv _)]
    simp only [andThen]
    by_cases hb : trim (directText p) = []
    · rw [if_pos hb, awaitCall_of_resolves _ _ _ (henv _)]
      simp only [andThen]
      rw [awaitCall_of_resolves _ _ _ (henv _)]
      exact ih _ _ _
    · rw [if_neg hb]
      exact ih _ _ _

theorem extractText_some (env : Env) (file : PdfFile) (w w' : World) (t : JSString)
    (h : extractText env file w = (some t, w')) :
    t = normalizeText (file.pages.flatMap (fun p => pageText p ++ js "\n")) ∧
      recognizeCalls w'.trace =
        recognizeCalls w.trace ++ (blankPages 1 file.pages).map (fun k => (file.name, k, js "eng")) := by
  unfold extractText at h
  obtain ⟨_, h⟩ := andThen_awaitCall_some _ _ _ _ _ _ h
  obtain ⟨_, h⟩ := andThen_awaitCall_some _ _ _ _ _ _ h
  obtain ⟨full, w3, hp, h⟩ := andThen_some _ _ _ _ h
  obtain ⟨ht, hc⟩ := extractPages_some _ _ _ _ _ _ _ _ hp
  simp only [Prod.mk.injEq, Option.some.injEq] at h
  obtain ⟨rfl, rfl⟩ := h
  refine ⟨by rw [ht]; simp, ?_⟩
  rw [hc]
  simp only [recognizeCalls_emit]
  simp [recognizeCalls]

theorem extractText_returns (env : Env) (henv : env.reliable) (file : PdfFile) (w : World) :
    ∃ t w', extractText env file w = (some t, w') := by
  unfold extractText
  rw [awaitCall_of_resolves _ _ _ (henv _)]
  simp only [andThen]
  rw [awaitCall_of_resolves _ _ _ (henv _)]
  simp only [andThen]
  obtain ⟨t, w', h⟩ := extractPages_returns env henv file.name file.pages 1 []
    (emit (.call (.getDocument file.name)) (emit (.call (.arrayBuffer file.name)) w))
  rw [h]
  exact ⟨_, _, rfl⟩

theorem normalizeText_nil : normalizeText [] = [] := by decide

/-- C4: with libraries whose calls resolve, `extractText` returns
`normalizeText` of the pages' texts in page order, a line feed behind each,
the text of a page being its direct text when that is not blank and the
recognized text otherwise; for a document without pages it returns the empty
string. -/
theorem extractText_result (env : Env) (file : PdfFile) (w : World) (henv : env.reliable) :
    (extractText env file w).1 =
        some (normalizeText (file.pages.flatMap (fun p => pageText p ++ js "\n"))) ∧
      (file.pages = [] → (extractText env file w).1 = some []) := by
  obtain ⟨t, w', h⟩ := extractText_returns env henv file w
  have ht := (extractText_some env file w w' t h).1
  have h1 : (extractText env file w).1 =
      some (normalizeText (file.pages.flatMap (fun p => pageText p ++ js "\n"))) := by
    rw [h, ht]
  refine ⟨h1, fun hnil => ?_⟩
  rw [h1, hnil]
  exact congrArg some normalizeText_nil

theorem extractText_result_witness :
    (extractText sampleEnv sampleFile emptyWorld).1 =
        some (normalizeText (sampleFile.pages.flatMap (fun p => pageText p ++ js "\n"))) ∧
      (sampleFile.pages = [] → (extractText sampleEnv sampleFile emptyWorld).1 = some []) :=
  extractText_result sampleEnv sampleFile emptyWorld (fun _ => rfl)

theorem extractText_sample :
    (extractText sampleEnv sampleFile emptyWorld).1 = some (js "Hi ok") := by decide

/-- The blank pages from number `i` on are the numbers `i + j` of the blank
pages `ps[j]`. -/
theorem mem_blankPages (ps : List Page) :
    ∀ (i k : Nat), k ∈ blankPages i ps ↔
      ∃ j p, ps[j]? = some p ∧ k = i + j ∧ trim (directText p) = [] := by
  induction ps with
  | nil => intro i k; simp [blankPages]
  | cons q qs ih =>
    intro i k
    have hstep : (∃ j p, (q :: qs)[j]? = some p ∧ k = i + j ∧ trim (directText p) = []) ↔
        (k = i ∧ trim (directText q) = []) ∨
          ∃ j p, qs[j]? = some p ∧ k = i + 1 + j ∧ trim (directText p) = [] := by
      constructor
      · rintro ⟨j, p, hj, hk, hb⟩
        cases j with
        | zero =>
          simp only [List.getElem?_cons_zero, Option.some.injEq] at hj
          exact Or.inl ⟨by simpa using hk, hj ▸ hb⟩
        | succ j =>
          simp only [List.getElem?_cons_succ] at hj
          exact Or.inr ⟨j, p, hj, by omega, hb⟩
      · rintro (⟨hk, hb⟩ | ⟨j, p, hj, hk, hb⟩)
        · exact ⟨0, q, by simp, by simpa using hk, hb⟩
        · exact ⟨j + 1, p, by simpa using hj, by omega, hb⟩
    rw [hstep, ← ih (i + 1) k]
    by_cases hb : trim (directText q) = []
    · simp [blankPages, hb]
    · simp [blankPages, hb]

theorem blankPages_lower (ps : List Page) : ∀ (i k : Nat), k ∈ blankPages i ps → i ≤ k := by
  intro i k hk
  obtain ⟨j, _, _, h, _⟩ := (mem_blankPages ps i k).1 hk
  omega

theorem blankPages_increasing (ps : List Page) :
    ∀ (i : Nat), (blankPages i ps).Pairwise (fun a b => a < b) := by
  induction ps with
  | nil => intro i; simp [blankPages]
  | cons q qs ih =>
    intro i
    by_cases hb : trim (directText q) = []
    · simp only [blankPages, hb, if_true, List.pairwise_cons]
      exact ⟨fun k hk => blankPages_lower qs (i + 1) k hk, ih (i + 1)⟩
    · simp only [blankPages, hb, if_false]
      exact ih (i + 1)

theorem blankPages_length (ps : List Page) :
    ∀ (i : Nat), (blankPages i ps).length =
      ps.countP (fun p => decide (trim (directText p) = [])) := by
  induction ps with
  | nil => intro i; simp [blankPages]
  | cons q qs ih =>
    intro i
    by_cases hb : trim (directText q) = []
    · simp [blankPages, hb, ih (i + 1)]
    · simp [blankPages, hb, ih (i + 1)]

/-- C5: in an `extractText` call that returns, the calls of the recognition
engine are one call per page whose direct text is blank after trimming, in
page order and each for the language model `eng`, and none for any other
page; their number is the number of blank pages, and there is none when no
page is blank. -/
theorem extractText_recognize (env : Env) (file : PdfFile) (w w' : World) (t : JSString)
    (h : extractText env file w = (some t, w')) :
    recognizeCalls w'.trace =
        recognizeCalls w.trace ++
          (blankPages 1 file.pages).map (fun k => (file.name, k, js "eng")) ∧
      (∀ k, k ∈ blankPages 1 file.pages ↔
        ∃ j p, file.pages[j]? = some p ∧ k = 1 + j ∧ trim (directText p) = []) ∧
      (blankPages 1 file.pages).Pairwise (fun a b => a < b) ∧
      (blankPages 1 file.pages).length =
        file.pages.countP (fun p => decide (trim (directText p) = [])) ∧
      ((∀ p ∈ file.pages, trim (directText p) ≠ []) →
        recognizeCalls w'.trace = recognizeCalls w.trace) := by
  have hc := (extractText_some env file w w' t h).2
  refine ⟨hc, mem_blankPages _ 1, blankPages_increasing _ 1, blankPages_length _ 1, ?_⟩
  intro hall
  have hlen := blankPages_length file.pages 1
  have hzero : file.pages.countP (fun p => decide (trim (directText p) = [])) = 0 := by
    rw [List.countP_eq_zero]
    intro p hp
    simpa using hall p hp
  rw [hzero] at hlen
  rw [hc, List.length_eq_zero.1 hlen]
  simp

theorem extractText_recognize_witness :
    recognizeCalls (extractText sampleEnv sampleFile emptyWorld).2.trace =
        recognizeCalls emptyWorld.trace ++
          (blankPages 1 sampleFile.pages).map (fun k => (sampleFile.name, k, js "eng")) ∧
      (∀ k, k ∈ blankPages 1 sampleFile.pages ↔
        ∃ j p, sampleFile.pages[j]? = some p ∧ k = 1 + j ∧ trim (directText p) = []) ∧
      (blankPages 1 sampleFile.pages).Pairwise (fun a b => a < b) ∧
      (blankPages 1 sampleFile.pages).length =
        sampleFile.pages.countP (fun p => decide (trim (directText p) = [])) ∧
      ((∀ p ∈ sampleFile.pages, trim (directText p) ≠ []) →
        recognizeCalls (extractText sampleEnv sampleFile emptyWorld).2.trace =
          recognizeCalls emptyWorld.trace) :=
  extractText_recognize sampleEnv sampleFile emptyWorld
    (extractText sampleEnv sampleFile emptyWorld).2 (js "Hi ok") (by decide)

theorem recognizeCalls_sample :
    recognizeCalls (extractText sampleEnv sampleFile emptyWorld).2.trace =
      [(1, 2, js "eng")] := by decide

/-! ## The markup of a diff -/

theorem appendSegment_eq (acc : JSString) (d : Diff) :
    appendSegment acc d = acc ++ segmentSpan d := by
  unfold appendSegment segmentSpan
  split_ifs <;> rfl

theorem foldl_appendSegment (diffs : List Diff) :
    ∀ acc : JSString, diffs.foldl appendSegment acc = acc ++ (diffs.map segmentSpan).flatten := by
  induction diffs with
  | nil => intro acc; simp
  | cons d ds ih => intro acc; simp [List.foldl_cons, ih, appendSegment_eq]

theorem buildDiffHtml_eq (diffs : List Diff) :
    buildDiffHtml diffs = (diffs.map segmentSpan).flatten := by
  simp [buildDiffHtml, foldl_appendSegment]

/-- Every span starts with `<s`. -/
theorem segmentSpan_head (d : Diff) : ∃ r, segmentSpan d = 60 :: 115 :: r := by
  unfold segmentSpan
  split_ifs
  · exact ⟨_, rfl⟩
  · exact ⟨_, rfl⟩
  · exact ⟨_, rfl⟩

theorem noTextMessage_head : ∃ r, noTextMessage = 60 :: 98 :: r := ⟨_, rfl⟩

/-- No diff markup is the no-readable-text message. -/
theorem buildDiffHtml_ne_noText (diffs : List Diff) : buildDiffHtml diffs ≠ noTextMessage := by
  rw [buildDiffHtml_eq]
  obtain ⟨r, hr⟩ := noTextMessage_head
  cases diffs with
  | nil => rw [hr]; simp
  | cons d ds =>
    obtain ⟨q, hq⟩ := segmentSpan_head d
    rw [hr, List.map_cons, List.flatten_cons, hq]
    simp

theorem waitMessage_ne_noText : waitMessage ≠ noTextMessage := by decide

/-! ## Effects of the helpers -/

theorem HelperRun.refl (w : World) : HelperRun w w :=
  ⟨rfl, [], by simp, fun e he => absurd he (List.not_mem_nil e)⟩

theorem HelperRun.trans {w1 w2 w3 : World} (h12 : HelperRun w1 w2) (h23 : HelperRun w2 w3) :
    HelperRun w1 w3 := by
  obtain ⟨hd1, e1, ht1, he1⟩ := h12
  obtain ⟨hd2, e2, ht2, he2⟩ := h23
  refine ⟨hd2.trans hd1, e1 ++ e2, by rw [ht2, ht1, List.append_assoc], ?_⟩
  intro e he
  rcases List.mem_append.1 he with h | h
  · exact he1 e h
  · exact he2 e h

theorem HelperRun.emit (e : Event) (w : World) (he : Event.isHelper e = true) :
    HelperRun w (emit e w) :=
  ⟨rfl, [e], rfl, fun x hx => by rw [List.mem_singleton.1 hx]; exact he⟩

theorem HelperRun.clearView (v : View) (w : World) : HelperRun w (clearView v w) := by
  cases v <;> exact ⟨rfl, [.clearView _], rfl, fun x hx => by rw [List.mem_singleton.1 hx]; rfl⟩

theorem HelperRun.appendCanvas (v : View) (i : Nat) (w : World) :
    HelperRun w (appendCanvas v i w) := by
  cases v <;>
    exact ⟨rfl, [.appendCanvas _ i], rfl, fun x hx => by rw [List.mem_singleton.1 hx]; rfl⟩

theorem HelperRun.awaitCall (env : Env) (c : Call) (w : World)
    (hc : Event.isHelper (.call c) = true) : HelperRun w (awaitCall env c w).2 := by
  unfold PDFComparision.awaitCall
  split_ifs <;> exact HelperRun.emit _ w hc

theorem HelperRun.andThen {α β : Type} (w : World) (r : Outcome α) (k : α → World → Outcome β)
    (hr : HelperRun w r.2) (hk : ∀ a w1, HelperRun w w1 → HelperRun w (k a w1).2) :
    HelperRun w (andThen r k).2 := by
  obtain ⟨o, w1⟩ := r
  cases o with
  | none => exact hr
  | some a => exact hk a w1 hr

theorem renderPages_helper (env : Env) (f : Nat) (v : View) (ps : List Page) :
    ∀ (i : Nat) (w0 w : World), HelperRun w0 w → HelperRun w0 (renderPages env f v i ps w).2 := by
  induction ps with
  | nil => intro i w0 w h; exact h
  | cons p ps ih =>
    intro i w0 w h
    rw [renderPages]
    refine HelperRun.andThen w0 _ _ (h.trans (HelperRun.awaitCall env _ w rfl)) ?_
    intro _ w1 h1
    refine HelperRun.andThen w0 _ _
      ((h1.trans (HelperRun.appendCanvas v i w1)).trans (HelperRun.awaitCall env _ _ rfl)) ?_
    intro _ w2 h2
    exact ih _ w0 w2 h2

theorem renderPDF_helper (env : Env) (file : PdfFile) (v : View) (w : World) :
    HelperRun w (renderPDF env file v w).2 := by
  unfold renderPDF
  refine HelperRun.andThen w _ _ (HelperRun.awaitCall env _ w rfl) ?_
  intro _ w1 h1
  refine HelperRun.andThen w _ _ (h1.trans (HelperRun.awaitCall env _ w1 rfl)) ?_
  intro _ w2 h2
  exact renderPages_helper env _ v _ 1 w _ (h2.trans (HelperRun.clearView v w2))

theorem extractPages_helper (env : Env) (f : Nat) (ps : List Page) :
    ∀ (i : Nat) (acc : JSString) (w0 w : World),
      HelperRun w0 w → HelperRun w0 (extractPages env f i ps acc w).2 := by
  induction ps with
  | nil => intro i acc w0 w h; exact h
  | cons p ps ih =>
    intro i acc w0 w h
    rw [extractPages]
    refine HelperRun.andThen w0 _ _ (h.trans (HelperRun.awaitCall env _ w rfl)) ?_
    intro _ w1 h1
    refine HelperRun.andThen w0 _ _ (h1.trans (HelperRun.awaitCall env _ w1 rfl)) ?_
    intro _ w2 h2
    by_cases hb : trim (directText p) = []
    · rw [if_pos hb]
      refine HelperRun.andThen w0 _ _ (h2.trans (HelperRun.awaitCall env _ w2 rfl)) ?_
      intro _ w3 h3
      refine HelperRun.andThen w0 _ _ (h3.trans (HelperRun.awaitCall env _ w3 rfl)) ?_
      intro _ w4 h4
      exact ih _ _ w0 w4 h4
    · rw [if_neg hb]
      exact ih _ _ w0 w2 h2

theorem extractText_helper (env : Env) (file : PdfFile) (w : World) :
    HelperRun w (extractText env file w).2 := by
  unfold extractText
  refine HelperRun.andThen w _ _ (HelperRun.awaitCall env _ w rfl) ?_
  intro _ w1 h1
  refine HelperRun.andThen w _ _ (h1.trans (HelperRun.awaitCall env _ w1 rfl)) ?_
  intro _ w2 h2
  refine HelperRun.andThen w _ _ (extractPages_helper env _ _ 1 [] w w2 h2) ?_
  intro _ w3 h3
  exact h3

/-- A projection of the trace that drops the helpers' effects reads the same
before and after a helper run. -/
theorem HelperRun.filterMap_eq {γ : Type} (F : Event → Option γ)
    (hF : ∀ e, Event.isHelper e = true → F e = none) {w1 w2 : World} (h : HelperRun w1 w2) :
    w2.trace.filterMap F = w1.trace.filterMap F := by
  obtain ⟨_, evs, ht, he⟩ := h
  rw [ht, List.filterMap_append]
  have : evs.filterMap F = [] := by
    rw [List.filterMap_eq_nil_iff]
    exact fun e hm => hF e (he e hm)
  rw [this, List.append_nil]

theorem HelperRun.diffCalls_eq {w1 w2 : World} (h : HelperRun w1 w2) :
    diffCalls w2.trace = diffCalls w1.trace := by
  apply h.filterMap_eq
  intro e he
  cases e with
  | call c => cases c <;> first | rfl | cases he
  | _ => rfl

theorem HelperRun.diffMainCalls_eq {w1 w2 : World} (h : HelperRun w1 w2) :
    diffMainCalls w2.trace = diffMainCalls w1.trace := by
  apply h.filterMap_eq
  intro e he
  cases e with
  | call c => cases c <;> first | rfl | cases he
  | _ => rfl

theorem HelperRun.resultWrites_eq {w1 w2 : World} (h : HelperRun w1 w2) :
    resultWrites w2.trace = resultWrites w1.trace := by
  apply h.filterMap_eq
  intro e he
  cases e with
  | call c => rfl
  | _ => first | rfl | cases he

/-! ## The orchestrator -/

/-- The run of `comparePDFs` on two files once rendering and extraction have
returned: the empty-text branch or the diff. -/
theorem comparePDFs_of_helpers (env : Env) (f1 f2 : PdfFile) (w w1 w2 w3 w4 : World)
    (t1 t2 : JSString)
    (h1 : renderPDF env f1 .pdf1 (setResult waitMessage w) = (some (), w1))
    (h2 : renderPDF env f2 .pdf2 w1 = (some (), w2))
    (h3 : extractText env f1 w2 = (some t1, w3))
    (h4 : extractText env f2 w3 = (some t2, w4)) :
    comparePDFs env (some f1) (some f2) w =
      if t1 = [] ∧ t2 = [] then (some (), setResult noTextMessage w4)
      else
        andThen (awaitCall env (.diff_main t1 t2) w4) fun _ w5 =>
        andThen (awaitCall env (.diff_cleanupSemantic (env.diff_main t1 t2)) w5) fun _ w6 =>
        (some (), setResult (buildDiffHtml (env.diff_cleanupSemantic (env.diff_main t1 t2))) w6) := by
  simp only [comparePDFs, h1, h2, h3, h4, andThen]

/-- The helpers of one `comparePDFs` run leave the orchestrator's own effects
as the wait message left them. -/
theorem helpers_chain (env : Env) (f1 f2 : PdfFile) (w w1 w2 w3 w4 : World) (t1 t2 : JSString)
    (h1 : renderPDF env f1 .pdf1 (setResult waitMessage w) = (some (), w1))
    (h2 : renderPDF env f2 .pdf2 w1 = (some (), w2))
    (h3 : extractText env f1 w2 = (some t1, w3))
    (h4 : extractText env f2 w3 = (some t2, w4)) :
    HelperRun (setResult waitMessage w) w4 := by
  have r1 := renderPDF_helper env f1 .pdf1 (setResult waitMessage w)
  have r2 := renderPDF_helper env f2 .pdf2 w1
  have r3 := extractText_helper env f1 w2
  have r4 := extractText_helper env f2 w3
  rw [h1] at r1
  rw [h2] at r2
  rw [h3] at r3
  rw [h4] at r4
  exact ((r1.trans r2).trans r3).trans r4

/-- C6: the markup `comparePDFs` writes to the result area for a diff is the
concatenation, in segment order, of one span per segment: class `diff-added`
for kind 1, class `diff-removed` for kind -1, a plain span for every other
kind, each around the escaped text; the empty diff gives the empty string. -/
theorem comparePDFs_markup (env : Env) (f1 f2 : PdfFile) (w w1 w2 w3 w4 : World)
    (t1 t2 : JSString)
    (h1 : renderPDF env f1 .pdf1 (setResult waitMessage w) = (some (), w1))
    (h2 : renderPDF env f2 .pdf2 w1 = (some (), w2))
    (h3 : extractText env f1 w2 = (some t1, w3))
    (h4 : extractText env f2 w3 = (some t2, w4))
    (hne : ¬ (t1 = [] ∧ t2 = []))
    (hd : env.rejects (.diff_main t1 t2) = false)
    (hc : env.rejects (.diff_cleanupSemantic (env.diff_main t1 t2)) = false) :
    (comparePDFs env (some f1) (some f2) w).1 = some () ∧
      (comparePDFs env (some f1) (some f2) w).2.diffResult =
        ((env.diff_cleanupSemantic (env.diff_main t1 t2)).map segmentSpan).flatten ∧
      (∀ diffs, buildDiffHtml diffs = (diffs.map segmentSpan).flatten) ∧
      buildDiffHtml [] = [] := by
  rw [comparePDFs_of_helpers env f1 f2 w w1 w2 w3 w4 t1 t2 h1 h2 h3 h4, if_neg hne,
    awaitCall_of_resolves _ _ _ hd]
  simp only [andThen]
  rw [awaitCall_of_resolves _ _ _ hc]
  exact ⟨rfl, buildDiffHtml_eq _, buildDiffHtml_eq, rfl⟩

theorem comparePDFs_markup_witness :
    (comparePDFs sampleEnv (some sampleFile) (some blankFile) emptyWorld).1 = some () ∧
      (comparePDFs sampleEnv (some sampleFile) (some blankFile) emptyWorld).2.diffResult =
        ((sampleEnv.diff_cleanupSemantic (sampleEnv.diff_main (js "Hi ok") [])).map
          segmentSpan).flatten ∧
      (∀ diffs, buildDiffHtml diffs = (diffs.map segmentSpan).flatten) ∧
      buildDiffHtml [] = [] :=
  comparePDFs_markup sampleEnv sampleFile blankFile emptyWorld
    (afterRender1 sampleFile) (afterRender2 sampleFile blankFile)
    (afterExtract1 sampleFile blankFile) (afterExtract2 sampleFile blankFile)
    (js "Hi ok") [] rfl rfl rfl rfl (by decide) rfl rfl

theorem comparePDFs_sample_markup :
    (comparePDFs sampleEnv (some sampleFile) (some blankFile) emptyWorld).2.diffResult =
      js "<span class=\"diff-removed\">Hi ok</span><span class=\"diff-added\"></span>" := by
  decide

theorem diffCalls_append (a b : List Event) : diffCalls (a ++ b) = diffCalls a ++ diffCalls b := by
  simp [diffCalls, List.filterMap_append]

theorem diffMainCalls_append (a b : List Event) :
    diffMainCalls (a ++ b) = diffMainCalls a ++ diffMainCalls b := by
  simp [diffMainCalls, List.filterMap_append]

theorem resultWrites_append (a b : List Event) :
    resultWrites (a ++ b) = resultWrites a ++ resultWrites b := by
  simp [resultWrites, List.filterMap_append]

theorem trace_emit (e : Event) (w : World) : (emit e w).trace = w.trace ++ [e] := rfl

theorem trace_setResult (html : JSString) (w : World) :
    (setResult html w).trace = w.trace ++ [.setResult html] := rfl

/-- C9: in a `comparePDFs` run on two files whose rendering and extraction
return, with texts `t1` and `t2`: when both are empty the run ends with the
no-readable-text message in the result area and without a call of the diff
engine; when one is not empty, `diff_main` is called once, on `(t1, t2)`, and
followed by one `diff_cleanupSemantic` on its answer when it returns, and the
no-readable-text message is neither written nor left in the result area. -/
theorem comparePDFs_noText_or_diff (env : Env) (f1 f2 : PdfFile) (w w1 w2 w3 w4 : World)
    (t1 t2 : JSString)
    (h1 : renderPDF env f1 .pdf1 (setResult waitMessage w) = (some (), w1))
    (h2 : renderPDF env f2 .pdf2 w1 = (some (), w2))
    (h3 : extractText env f1 w2 = (some t1, w3))
    (h4 : extractText env f2 w3 = (some t2, w4)) :
    (t1 = [] ∧ t2 = [] →
        (comparePDFs env (some f1) (some f2) w).1 = some () ∧
        (comparePDFs env (some f1) (some f2) w).2.diffResult = noTextMessage ∧
        diffCalls (comparePDFs env (some f1) (some f2) w).2.trace = diffCalls w.trace) ∧
      (¬ (t1 = [] ∧ t2 = []) →
        diffMainCalls (comparePDFs env (some f1) (some f2) w).2.trace =
            diffMainCalls w.trace ++ [(t1, t2)] ∧
          (env.rejects (.diff_main t1 t2) = false →
            diffCalls (comparePDFs env (some f1) (some f2) w).2.trace =
              diffCalls w.trace ++
                [.diff_main t1 t2, .diff_cleanupSemantic (env.diff_main t1 t2)]) ∧
          (comparePDFs env (some f1) (some f2) w).2.diffResult ≠ noTextMessage ∧
          ∃ shown, resultWrites (comparePDFs env (some f1) (some f2) w).2.trace =
              resultWrites w.trace ++ shown ∧ noTextMessage ∉ shown) := by
  have hrun := helpers_chain env f1 f2 w w1 w2 w3 w4 t1 t2 h1 h2 h3 h4
  have hdc : diffCalls w4.trace = diffCalls w.trace := by
    rw [hrun.diffCalls_eq, trace_setResult, diffCalls_append]
    simp [diffCalls]
  have hdm : diffMainCalls w4.trace = diffMainCalls w.trace := by
    rw [hrun.diffMainCalls_eq, trace_setResult, diffMainCalls_append]
    simp [diffMainCalls]
  have hrw : resultWrites w4.trace = resultWrites w.trace ++ [waitMessage] := by
    rw [hrun.resultWrites_eq, trace_setResult, resultWrites_append]
    simp [resultWrites]
  have hres : w4.diffResult = waitMessage := hrun.1
  rw [comparePDFs_of_helpers env f1 f2 w w1 w2 w3 w4 t1 t2 h1 h2 h3 h4]
  refine ⟨fun he => ?_, fun hne => ?_⟩
  · rw [if_pos he]
    refine ⟨rfl, rfl, ?_⟩
    rw [trace_setResult, diffCalls_append, hdc]
    simp [diffCalls]
  · rw [if_neg hne]
    cases hd : env.rejects (.diff_main t1 t2) with
    | true =>
      simp only [awaitCall, hd, if_true, andThen, trace_emit]
      refine ⟨?_, fun hf => Bool.noConfusion hf, ?_, [waitMessage], ?_, ?_⟩
      · rw [diffMainCalls_append, hdm]; simp [diffMainCalls]
      · show w4.diffResult ≠ noTextMessage
        rw [hres]; exact waitMessage_ne_noText
      · rw [resultWrites_append, hrw]; simp [resultWrites]
      · simpa using fun h => waitMessage_ne_noText h.symm
    | false =>
      rw [awaitCall_of_resolves _ _ _ hd]
      simp only [andThen]
      cases hc : env.rejects (.diff_cleanupSemantic (env.diff_main t1 t2)) with
      | true =>
        simp only [awaitCall, hc, if_true, trace_emit]
        refine ⟨?_, fun _ => ?_, ?_, [waitMessage], ?_, ?_⟩
        · rw [diffMainCalls_append, diffMainCalls_append, hdm]; simp [diffMainCalls]
        · rw [diffCalls_append, diffCalls_append, hdc]; simp [diffCalls]
        · show w4.diffResult ≠ noTextMessage
          rw [hres]; exact waitMessage_ne_noText
        · rw [resultWrites_append, resultWrites_append, hrw]; simp [resultWrites]
        · simpa using fun h => waitMessage_ne_noText h.symm
      | false =>
        rw [awaitCall_of_resolves _ _ _ hc]
        simp only [trace_setResult, trace_emit]
        refine ⟨?_, fun _ => ?_, ?_,
          [waitMessage, buildDiffHtml (env.diff_cleanupSemantic (env.diff_main t1 t2))], ?_, ?_⟩
        · rw [diffMainCalls_append, diffMainCalls_append, diffMainCalls_append, hdm]
          simp [diffMainCalls]
        · rw [diffCalls_append, diffCalls_append, diffCalls_append, hdc]; simp [diffCalls]
        · exact buildDiffHtml_ne_noText _
        · rw [resultWrites_append, resultWrites_append, resultWrites_append, hrw]
          simp [resultWrites]
        · simp only [List.mem_cons, List.mem_singleton, List.not_mem_nil, or_false, not_or]
          exact ⟨fun h => waitMessage_ne_noText h.symm,
            fun h => buildDiffHtml_ne_noText _ h.symm⟩

theorem comparePDFs_noText_or_diff_witness :
    (([] : JSString) = [] ∧ ([] : JSString) = [] →
        (comparePDFs sampleEnv (some blankFile) (some blankFile) emptyWorld).1 = some () ∧
        (comparePDFs sampleEnv (some blankFile) (some blankFile) emptyWorld).2.diffResult =
          noTextMessage ∧
        diffCalls (comparePDFs sampleEnv (some blankFile) (some blankFile) emptyWorld).2.trace =
          diffCalls emptyWorld.trace) ∧
      (¬ (([] : JSString) = [] ∧ ([] : JSString) = []) →
        diffMainCalls (comparePDFs sampleEnv (some blankFile) (some blankFile) emptyWorld).2.trace =
            diffMainCalls emptyWorld.trace ++ [([], [])] ∧
          (sampleEnv.rejects (.diff_main [] []) = false →
            diffCalls (comparePDFs sampleEnv (some blankFile) (some blankFile) emptyWorld).2.trace =
              diffCalls emptyWorld.trace ++
                [.diff_main [] [], .diff_cleanupSemantic (sampleEnv.diff_main [] [])]) ∧
          (comparePDFs sampleEnv (some blankFile) (some blankFile) emptyWorld).2.diffResult ≠
            noTextMessage ∧
          ∃ shown,
            resultWrites (comparePDFs sampleEnv (some blankFile) (some blankFile) emptyWorld).2.trace =
              resultWrites emptyWorld.trace ++ shown ∧ noTextMessage ∉ shown) :=
  comparePDFs_noText_or_diff sampleEnv blankFile blankFile emptyWorld
    (afterRender1 blankFile) (afterRender2 blankFile blankFile)
    (afterExtract1 blankFile blankFile) (afterExtract2 blankFile blankFile)
    [] [] rfl rfl rfl rfl

theorem comparePDFs_sample_noText :
    (comparePDFs sampleEnv (some blankFile) (some blankFile) emptyWorld).2.diffResult =
      noTextMessage := by decide

theorem comparePDFs_sample_diffCalls :
    diffCalls (comparePDFs sampleEnv (some sampleFile) (some blankFile) emptyWorld).2.trace =
      [.diff_main (js "Hi ok") [], .diff_cleanupSemantic [(-1, js "Hi ok"), (1, [])]] := by
  decide

/-- C10: with no file in the first input, in the second or in both,
`comparePDFs` shows the alert `Please upload both PDFs` once and returns; the
result area and both page views keep their contents, and the alert is the
only effect: no file is read, no document decoded, no page drawn, no text
extracted or recognized, no diff computed. -/
theorem comparePDFs_missing (env : Env) (file1 file2 : Option PdfFile) (w : World)
    (h : file1 = none ∨ file2 = none) :
    (comparePDFs env file1 file2 w).1 = some () ∧
      (comparePDFs env file1 file2 w).2.diffResult = w.diffResult ∧
      (comparePDFs env file1 file2 w).2.pdf1View = w.pdf1View ∧
      (comparePDFs env file1 file2 w).2.pdf2View = w.pdf2View ∧
      (comparePDFs env file1 file2 w).2.trace = w.trace ++ [.alert uploadBothMessage] := by
  have hrun : comparePDFs env file1 file2 w = (some (), alert uploadBothMessage w) := by
    rcases h with h | h
    · subst h; rfl
    · subst h; cases file1 <;> rfl
  rw [hrun]
  exact ⟨rfl, rfl, rfl, rfl, rfl⟩

theorem comparePDFs_missing_witness :
    (comparePDFs sampleEnv (some sampleFile) none emptyWorld).1 = some () ∧
      (comparePDFs sampleEnv (some sampleFile) none emptyWorld).2.diffResult =
        emptyWorld.diffResult ∧
      (comparePDFs sampleEnv (some sampleFile) none emptyWorld).2.pdf1View = emptyWorld.pdf1View ∧
      (comparePDFs sampleEnv (some sampleFile) none emptyWorld).2.pdf2View = emptyWorld.pdf2View ∧
      (comparePDFs sampleEnv (some sampleFile) none emptyWorld).2.trace =
        emptyWorld.trace ++ [.alert uploadBothMessage] :=
  comparePDFs_missing sampleEnv (some sampleFile) none emptyWorld (Or.inr rfl)

end PDFComparision
